import Mathlib

/-!
Verification of the showtime-builder scheduling engine.

This file is a shallow embedding of the pure scheduling core of the
showtime-builder web application (src/app.js and src/dashboard.js, plus the
prime-page render loops).  Instants are modelled as minutes from the start of
"today" (the JS code works with Date objects that all denote today, adding a
day, 1440 minutes, for times that roll past midnight).  JS object fields that
may be null or undefined become Option values; the JS truthiness tests that
the code performs on numbers (0 is falsy) and strings (the empty string is
falsy) are modelled explicitly.  Code paths on which the JS code would throw
a TypeError (reading a property of null) are modelled by Option-valued
functions returning none.  The mutable singleton state is threaded
explicitly: each mutating entry point is a function from the application
state to the new application state.
-/

namespace Showtime

/-- A wall-clock time, the parsed form of an "HH:MM" string.  Absent or empty
time strings are modelled as `Option HM` being `none` at the use sites. -/
structure HM where
  h : Nat
  m : Nat
deriving DecidableEq

/-- Mirrors dtFromHM in app.js: convert an HH:MM value to an instant (minutes
from midnight of today).  The JS parse clamps the hour to 0..23 and the
minute to 0..59; the clamping below is the same because the fields are
naturals. -/
def dtFromHM (hm : HM) : Int :=
  ((min hm.h 23 : Nat) : Int) * 60 + ((min hm.m 59 : Nat) : Int)

/-- Mirrors roundUp5 in app.js: round up to the nearest multiple of five.
The JS Math.ceil(x / 5) * 5 is the integer ceiling division; for an integer
x this equals the negated floor division of the negation.  Division on Int
in Lean is Euclidean division, which agrees with the JS Math.floor division
whenever the divisor is positive, as it is everywhere in this file. -/
def roundUp5 (x : Int) : Int := -((-x) / 5) * 5

/-- The hour-of-day of an instant, as read by the JS Date.getHours(). -/
def hourOfInstant (t : Int) : Int := (t / 60) % 24

/-- A film record (app.js defaultState.films shape). -/
structure Film where
  id : String
  title : String
  rating : String
  runtime : Int
  trailer : Int
  clean : Int
  priority : Option Int
  format : String
deriving DecidableEq

/-- An auditorium record (app.js defaultState.auds shape). -/
structure Aud where
  id : Int
  name : String
  format : String
  seats : Int
deriving DecidableEq

/-- A prime or extra row (the cycle generators). -/
structure Row where
  rowId : String
  bookingId : Option String
  slot : String
  filmId : Option String
  audId : Option Int
  primeHM : Option HM
deriving DecidableEq

/-- A show record as produced by makeRec / stored as a manual show.  The JS
field named end is called endT here because end is a Lean keyword. -/
structure Rec where
  id : String
  rowId : String
  offset : Int
  audId : Option Int
  audName : String
  filmId : Option String
  filmTitle : String
  start : Int
  endT : Int
  runtime : Int
  trailer : Int
  clean : Int
  cycle : Int
  source : String
deriving DecidableEq

/-- A sparse per-show override patch. -/
structure Override where
  start : Option Int
  audId : Option Int
  filmId : Option String
deriving DecidableEq

/-- The override object with no fields, i.e. the empty JS object. -/
def emptyOverride : Override := ⟨none, none, none⟩

/-- An undo stack entry (the tagged objects pushed onto state.undoStack). -/
inductive UndoEntry where
  | edit (showId : String) (prevStart : Int)
  | hide (showId : String) (prevHidden : Bool)
  | manual (shw : Rec)
  | moveAud (showId : String) (prevAudId : Option Int)
  | editFilm (showId : String) (prevFilmId : Option String)
deriving DecidableEq

/-- A per-date schedule snapshot (the entries of state.scheduleByDate). -/
structure Sched where
  primeRows : List Row
  extraRows : List Row
  manualShows : List Rec
  overrides : List (String × Override)
  hiddenShows : List String
  undoStack : List UndoEntry
deriving DecidableEq

/-- The application state (the fields of the ShowtimeState singleton that the
scheduling engine reads and writes).  The overrides map is an association
list keyed by show id; hiddenShows is the set of hidden show ids; the undo
stack stores the most recent entry first (JS pushes and pops at the end of
an array, which is the head of this list). -/
structure AppState where
  auds : List Aud
  films : List Film
  primeRows : List Row
  extraRows : List Row
  manualShows : List Rec
  overrides : List (String × Override)
  hiddenShows : List String
  undoStack : List UndoEntry
  firstShowHM : HM
  lastShowHM : HM
  scheduleByDate : List (String × Sched)
  currentDate : Option String
deriving DecidableEq

/-- Mirrors filmById in app.js; a null or unknown id yields no film. -/
def filmById (st : AppState) (id : Option String) : Option Film :=
  match id with
  | none => none
  | some i => st.films.find? (fun f => f.id == i)

/-- Mirrors audById in app.js. -/
def audById (st : AppState) (id : Option Int) : Option Aud :=
  match id with
  | none => none
  | some i => st.auds.find? (fun a => a.id == i)

/-- Mirrors cycleMinutes in app.js for a present film. -/
def cycleMinutes (film : Film) : Int :=
  roundUp5 (film.runtime + film.trailer + film.clean)

/-- Mirrors endOfMovie in app.js for a present film: start plus runtime and
trailer (clean time excluded). -/
def endOfMovie (start : Int) (film : Film) : Int :=
  start + film.runtime + film.trailer

/-- The format suffix the JS code appends to film titles. -/
def fmtSuffix (film : Film) : String :=
  if film.format != "" then " " ++ film.format else ""

/-- The operating-window start instant (dtFromHM of state.firstShowHM). -/
def windowFirst (st : AppState) : Int := dtFromHM st.firstShowHM

/-- The operating-window end instant: dtFromHM of state.lastShowHM, advanced
by one day when its hour is before 5, as in buildRowShowtimes. -/
def windowLast (st : AppState) : Int :=
  let last0 := dtFromHM st.lastShowHM
  if hourOfInstant last0 < 5 then last0 + 1440 else last0

/-- The pre-show count of buildRowShowtimes:
Math.floor(diffMins(prime, first) / cycle).  The cycle is positive at the
point of use, so the JS floor of the float division is the Euclidean
division. -/
def preCountOf (st : AppState) (phm : HM) (film : Film) : Int :=
  (dtFromHM phm - windowFirst st) / cycleMinutes film

/-- The post-show count of buildRowShowtimes:
Math.floor(diffMins(last, prime) / cycle). -/
def postCountOf (st : AppState) (phm : HM) (film : Film) : Int :=
  (windowLast st - dtFromHM phm) / cycleMinutes film

/-- Mirrors makeRec in app.js. -/
def makeRec (row : Row) (off : Int) (start : Int) (film : Film) (aud : Aud) : Rec :=
  { id := row.rowId ++ ":" ++ toString off
    rowId := row.rowId
    offset := off
    audId := some aud.id
    audName := aud.name
    filmId := some film.id
    filmTitle := film.title ++ fmtSuffix film
    start := start
    endT := endOfMovie start film
    runtime := film.runtime
    trailer := film.trailer
    clean := film.clean
    cycle := cycleMinutes film
    source := "Prime" }

/-- Mirrors buildRowShowtimes in app.js.  The two JS for-loops become
filterMap over index ranges: the first loop runs i from preCount down to 1
(element j of the range corresponds to i = preCount - j) and skips starts
before the window start; the prime show is always emitted; the second loop
runs i from 1 to postCount and skips starts after the window end. -/
def buildRowShowtimes (st : AppState) (row : Row) : List Rec :=
  match filmById st row.filmId, audById st row.audId, row.primeHM with
  | some film, some aud, some phm =>
    if cycleMinutes film ≤ 0 then []
    else
      ((List.range (preCountOf st phm film).toNat).filterMap (fun (j : Nat) =>
          if dtFromHM phm - (preCountOf st phm film - (j : Int)) * cycleMinutes film < windowFirst st
          then none
          else some (makeRec row (-(preCountOf st phm film - (j : Int)))
                 (dtFromHM phm - (preCountOf st phm film - (j : Int)) * cycleMinutes film) film aud)))
      ++ [makeRec row 0 (dtFromHM phm) film aud]
      ++ ((List.range (postCountOf st phm film).toNat).filterMap (fun (j : Nat) =>
          if windowLast st < dtFromHM phm + ((j : Int) + 1) * cycleMinutes film
          then none
          else some (makeRec row ((j : Int) + 1)
                 (dtFromHM phm + ((j : Int) + 1) * cycleMinutes film) film aud)))
  | _, _, _ => []

theorem filterMap_if_eq_map {α β : Type} (l : List α) (p : α → Prop) [DecidablePred p]
    (g : α → β) (h : ∀ a ∈ l, ¬ p a) :
    (l.filterMap fun a => if p a then none else some (g a)) = l.map g := by
  induction l with
  | nil => rfl
  | cons a t ih =>
    rw [List.filterMap_cons, List.map_cons, if_neg (h a (List.mem_cons_self a t))]
    rw [ih (fun x hx => h x (List.mem_cons_of_mem a hx))]

theorem ediv_mul_le_self {c : Int} (a : Int) (hc : 0 < c) : a / c * c ≤ a :=
  Int.ediv_mul_le a (ne_of_gt hc)

/-- C1.  buildRowShowtimes input validation and recurrence correctness: a row
with an absent filmId, audId or primeHM, or whose film has a non-positive
cycle, generates nothing; otherwise, when the prime instant lies inside the
(midnight-adjusted) operating window, the output is exactly the pre-shows at
prime - i*cycle for i = preCount down to 1, the prime show itself, and the
post-shows at prime + i*cycle for i = 1 to postCount, all window checks
passing, so the total count is floor((p-first)/c) + 1 + floor((last-p)/c)
and every start is p + k*c for an integer k. -/
theorem buildRowShowtimes_spec (st : AppState) (row : Row) :
    ((row.filmId = none ∨ row.audId = none ∨ row.primeHM = none) →
       buildRowShowtimes st row = [])
  ∧ (∀ film, filmById st row.filmId = some film → cycleMinutes film ≤ 0 →
       buildRowShowtimes st row = [])
  ∧ (∀ film aud phm,
       filmById st row.filmId = some film →
       audById st row.audId = some aud →
       row.primeHM = some phm →
       0 < cycleMinutes film →
       windowFirst st ≤ dtFromHM phm →
       dtFromHM phm < windowLast st →
       buildRowShowtimes st row =
           ((List.range (preCountOf st phm film).toNat).map (fun (j : Nat) =>
               makeRec row (-(preCountOf st phm film - (j : Int)))
                 (dtFromHM phm - (preCountOf st phm film - (j : Int)) * cycleMinutes film) film aud))
           ++ [makeRec row 0 (dtFromHM phm) film aud]
           ++ ((List.range (postCountOf st phm film).toNat).map (fun (j : Nat) =>
               makeRec row ((j : Int) + 1)
                 (dtFromHM phm + ((j : Int) + 1) * cycleMinutes film) film aud))
         ∧ ((buildRowShowtimes st row).length : Int)
             = preCountOf st phm film + 1 + postCountOf st phm film
         ∧ ∀ r ∈ buildRowShowtimes st row, ∃ k : Int,
             r.start = dtFromHM phm + k * cycleMinutes film) := by
  refine ⟨?_, ?_, ?_⟩
  · intro h
    rcases h with h | h | h <;>
      cases hf : filmById st row.filmId <;>
      cases ha : audById st row.audId <;>
      cases hp : row.primeHM <;>
      simp_all [buildRowShowtimes, filmById, audById]
  · intro film hf hc
    cases ha : audById st row.audId <;> cases hp : row.primeHM <;>
      simp [buildRowShowtimes, hf, ha, hp, hc]
  · intro film aud phm hf ha hp hcpos hfirst hlast
    have hcne : ¬ (cycleMinutes film ≤ 0) := not_le.mpr hcpos
    have hpc0 : 0 ≤ preCountOf st phm film :=
      Int.ediv_nonneg (by omega) (le_of_lt hcpos)
    have hps0 : 0 ≤ postCountOf st phm film :=
      Int.ediv_nonneg (by omega) (le_of_lt hcpos)
    have hpcmul : preCountOf st phm film * cycleMinutes film ≤ dtFromHM phm - windowFirst st :=
      ediv_mul_le_self _ hcpos
    have hpsmul : postCountOf st phm film * cycleMinutes film ≤ windowLast st - dtFromHM phm :=
      ediv_mul_le_self _ hcpos
    have hpres : ∀ j ∈ List.range (preCountOf st phm film).toNat,
        ¬ (dtFromHM phm - (preCountOf st phm film - (j : Int)) * cycleMinutes film < windowFirst st) := by
      intro j hj
      have hjlt : (j : Int) < preCountOf st phm film := by
        have := List.mem_range.mp hj
        omega
      have hle : (preCountOf st phm film - (j : Int)) * cycleMinutes film
          ≤ preCountOf st phm film * cycleMinutes film :=
        mul_le_mul_of_nonneg_right (by omega) (le_of_lt hcpos)
      simp only [not_lt]
      linarith
    have hposts : ∀ j ∈ List.range (postCountOf st phm film).toNat,
        ¬ (windowLast st < dtFromHM phm + ((j : Int) + 1) * cycleMinutes film) := by
      intro j hj
      have hjlt : (j : Int) < postCountOf st phm film := by
        have := List.mem_range.mp hj
        omega
      have hle : ((j : Int) + 1) * cycleMinutes film
          ≤ postCountOf st phm film * cycleMinutes film :=
        mul_le_mul_of_nonneg_right (by omega) (le_of_lt hcpos)
      simp only [not_lt]
      linarith
    have hbuild : buildRowShowtimes st row =
        ((List.range (preCountOf st phm film).toNat).map (fun (j : Nat) =>
            makeRec row (-(preCountOf st phm film - (j : Int)))
              (dtFromHM phm - (preCountOf st phm film - (j : Int)) * cycleMinutes film) film aud))
        ++ [makeRec row 0 (dtFromHM phm) film aud]
        ++ ((List.range (postCountOf st phm film).toNat).map (fun (j : Nat) =>
            makeRec row ((j : Int) + 1)
              (dtFromHM phm + ((j : Int) + 1) * cycleMinutes film) film aud)) := by
      have e1 := filterMap_if_eq_map (List.range (preCountOf st phm film).toNat)
        (fun j => dtFromHM phm - (preCountOf st phm film - (j : Int)) * cycleMinutes film < windowFirst st)
        (fun j => makeRec row (-(preCountOf st phm film - (j : Int)))
            (dtFromHM phm - (preCountOf st phm film - (j : Int)) * cycleMinutes film) film aud) hpres
      have e2 := filterMap_if_eq_map (List.range (postCountOf st phm film).toNat)
        (fun j => windowLast st < dtFromHM phm + ((j : Int) + 1) * cycleMinutes film)
        (fun j => makeRec row ((j : Int) + 1)
            (dtFromHM phm + ((j : Int) + 1) * cycleMinutes film) film aud) hposts
      simp only [] at e1 e2
      rw [buildRowShowtimes.eq_def, hf, ha, hp]
      simp only [if_neg hcne]
      rw [e1, e2]
    refine ⟨hbuild, ?_, ?_⟩
    · rw [hbuild]
      simp [List.length_append, List.length_map, List.length_range]
      omega
    · intro r hr
      rw [hbuild] at hr
      rcases List.mem_append.mp hr with hr | hr
      · rcases List.mem_append.mp hr with hr | hr
        · rcases List.mem_map.mp hr with ⟨j, _, rfl⟩
          exact ⟨-(preCountOf st phm film - (j : Int)), by simp [makeRec]; ring⟩
        · rcases List.mem_singleton.mp hr with rfl
          exact ⟨0, by simp [makeRec]⟩
      · rcases List.mem_map.mp hr with ⟨j, _, rfl⟩
        exact ⟨(j : Int) + 1, by simp [makeRec]⟩

/-! The override and manual layer: resolution (getAllShows in app.js). -/

/-- JS truthiness of a number-or-absent field: 0 and absent are falsy. -/
def jsTruthyInt : Option Int → Bool
  | some a => a != 0
  | none => false

/-- JS truthiness of a string-or-absent field: the empty string and absent
are falsy. -/
def jsTruthyStr : Option String → Bool
  | some s => s != ""
  | none => false

/-- The JS expression a || b on number-or-absent values. -/
def jsOrInt (a b : Option Int) : Option Int := if jsTruthyInt a then a else b

/-- The JS expression a || b on string-or-absent values. -/
def jsOrStr (a b : Option String) : Option String := if jsTruthyStr a then a else b

/-- How JS renders a number-or-null in a template string; null and undefined
are conflated to "null". -/
def optIntToString : Option Int → String
  | some a => toString a
  | none => "null"

/-- How JS renders a string-or-null in a template string. -/
def optStrToString : Option String → String
  | some s => s
  | none => "null"

/-- Look up an override by show id in an overrides association list. -/
def lookupOv (ovs : List (String × Override)) (id : String) : Option Override :=
  (ovs.find? (fun p => p.1 == id)).map (fun p => p.2)

/-- Mirrors state.overrides[showId] reads. -/
def lookupOverride (st : AppState) (id : String) : Option Override :=
  lookupOv st.overrides id

/-- The start-override step of getAllShows: if ov.start is present, replace
the start and recompute end from the effective film, which is
filmById(ov.filmId || r.filmId).  When that lookup fails the JS code calls
endOfMovie(start, null), which throws a TypeError reading null.runtime; the
thrown path is modelled as none. -/
def applyStartOv (st : AppState) (ov : Override) (r : Rec) : Option Rec :=
  match ov.start with
  | none => some r
  | some s =>
    match filmById st (jsOrStr ov.filmId r.filmId) with
    | none => none
    | some film => some { r with start := s, endT := endOfMovie s film }

/-- The auditorium-override step of getAllShows: if ov.audId is truthy,
replace the auditorium id and, when the lookup succeeds, the display name. -/
def applyAudOv (st : AppState) (ov : Override) (u : Rec) : Rec :=
  match ov.audId with
  | some a =>
    if a != 0 then
      { u with audId := some a,
               audName := match audById st (some a) with
                          | some audObj => audObj.name
                          | none => u.audName }
    else u
  | none => u

/-- The film-override step of getAllShows: if ov.filmId is truthy and differs
from the base filmId, and the film exists, replace the film fields and
recompute the end. -/
def applyFilmOv (st : AppState) (ov : Override) (r u : Rec) : Rec :=
  match ov.filmId with
  | some f =>
    if f != "" && some f != r.filmId then
      match filmById st (some f) with
      | some film =>
        { u with filmId := some film.id
                 filmTitle := film.title ++ fmtSuffix film
                 runtime := film.runtime
                 trailer := film.trailer
                 clean := film.clean
                 cycle := cycleMinutes film
                 endT := endOfMovie u.start film }
      | none => u
    else u
  | none => u

/-- The dynamic regrouping step of getAllShows: when the override moved the
show to a different auditorium or film than the base record, replace rowId
with the synthetic destination identifier and tag the source Override. -/
def regroupOv (ov : Override) (r u : Rec) : Rec :=
  if (jsTruthyInt ov.audId && ov.audId != r.audId)
      || (jsTruthyStr ov.filmId && ov.filmId != r.filmId) then
    { u with rowId := "OV-" ++ optIntToString (jsOrInt u.audId r.audId)
                 ++ "-" ++ optStrToString (jsOrStr u.filmId r.filmId)
             source := "Override" }
  else u

/-- Resolution of one show against the override map (the map body inside
getAllShows).  none models the TypeError thrown on the missing-film path of
the start override. -/
def resolveShow (st : AppState) (r : Rec) : Option Rec :=
  match lookupOverride st r.id with
  | none => some r
  | some ov =>
    (applyStartOv st ov r).map (fun u => regroupOv ov r (applyFilmOv st ov r (applyAudOv st ov u)))

/-- The raw show list of getAllShows: generated shows from prime and extra
rows, followed by manual shows tagged source Manual. -/
def rawShows (st : AppState) : List Rec :=
  ((st.primeRows ++ st.extraRows).map (buildRowShowtimes st)).flatten
  ++ st.manualShows.map (fun ms => { ms with source := "Manual" })

/-- The raw shows with hidden ids filtered out. -/
def visibleShows (st : AppState) : List Rec :=
  (rawShows st).filter (fun r => !(st.hiddenShows.contains r.id))

/-- Resolution of every visible show; none if any resolution threw. -/
def resolvedShows (st : AppState) : Option (List Rec) :=
  (visibleShows st).mapM (resolveShow st)

/-- The dedup key of getAllShows, the JS template string
start_audId_filmId.  The JS key uses the epoch milliseconds of the start;
minutes are used here, which is the same key up to the constant factor. -/
def showKey (r : Rec) : String :=
  toString r.start ++ "_" ++ optIntToString r.audId ++ "_" ++ optStrToString r.filmId

/-- The ordering the JS comparator (a, b) => a.start - b.start induces. -/
def startLE (a b : Rec) : Prop := a.start ≤ b.start

instance : DecidableRel startLE := fun a b => inferInstanceAs (Decidable (a.start ≤ b.start))

instance : IsTotal Rec startLE := ⟨fun a b => Int.le_total a.start b.start⟩

instance : IsTrans Rec startLE := ⟨fun _ _ _ h1 h2 => le_trans h1 h2⟩

/-- The dedup loop of getAllShows: walk the sorted list keeping a seen-set of
keys and keep only records whose key has not been seen. -/
def dedupShows : List Rec → List String → List Rec
  | [], _ => []
  | r :: rest, seen =>
    if seen.contains (showKey r) then dedupShows rest seen
    else r :: dedupShows rest (showKey r :: seen)

/-- Mirrors getAllShows in app.js: build, filter hidden, resolve, sort by
start time (the JS sort is required to be stable, so any stable sort
computes the same list; insertion sort is stable), then deduplicate.
none models the thrown TypeError of the missing-film resolution path. -/
def getAllShows (st : AppState) : Option (List Rec) :=
  (resolvedShows st).map (fun m => dedupShows (m.insertionSort startLE) [])

/-- Keeping the first record of every dedup key, stated as the plain
recursion the spec describes: keep the head, drop every later record with
the same key, recurse.  Used to characterise the dedup loop. -/
def keepFirstByKey : List Rec → List Rec
  | [] => []
  | r :: rest => r :: keepFirstByKey (rest.filter (fun x => showKey x != showKey r))
termination_by l => l.length
decreasing_by
  simp only [List.length_cons]
  exact Nat.lt_succ_of_le (List.length_filter_le _ rest)

theorem dedupShows_eq_keepFirstByKey :
    ∀ (l : List Rec) (seen : List String),
      dedupShows l seen = keepFirstByKey (l.filter (fun r => !(seen.contains (showKey r)))) := by
  intro l
  induction l with
  | nil => intro seen; simp only [List.filter_nil]; rw [dedupShows, keepFirstByKey]
  | cons r rest ih =>
    intro seen
    rw [dedupShows, List.filter_cons]
    cases h : seen.contains (showKey r) with
    | true =>
      simp only [h, Bool.not_true, if_true, Bool.false_eq_true, if_false]
      exact ih seen
    | false =>
      simp only [h, Bool.not_false, if_true, Bool.false_eq_true, if_false]
      rw [keepFirstByKey, ih (showKey r :: seen)]
      congr 1
      rw [List.filter_filter]
      congr 1
      apply List.filter_congr
      intro x _
      cases hd : (showKey x == showKey r) <;> cases hc : decide (showKey x ∈ seen) <;>
        simp_all [List.contains_cons, bne, Bool.not_or]

theorem dedupShows_sublist : ∀ (l : List Rec) (seen : List String),
    (dedupShows l seen).Sublist l := by
  intro l
  induction l with
  | nil => intro seen; exact List.Sublist.refl []
  | cons r rest ih =>
    intro seen
    rw [dedupShows]
    by_cases h : seen.contains (showKey r)
    · rw [if_pos h]; exact (ih seen).cons r
    · rw [if_neg h]; exact (ih (showKey r :: seen)).cons₂ r

theorem keepFirstByKey_subset :
    ∀ (l : List Rec) (x : Rec), x ∈ keepFirstByKey l → x ∈ l := by
  intro l
  induction l using keepFirstByKey.induct with
  | case1 =>
    intro x hx
    rw [keepFirstByKey] at hx
    exact absurd hx (List.not_mem_nil x)
  | case2 r rest ih =>
    intro x hx
    rw [keepFirstByKey] at hx
    rcases List.mem_cons.mp hx with rfl | hx
    · exact List.mem_cons_self _ _
    · exact List.mem_cons_of_mem _ (List.mem_of_mem_filter (ih x hx))

theorem keepFirstByKey_pairwise :
    ∀ l : List Rec, (keepFirstByKey l).Pairwise (fun a b => showKey a ≠ showKey b) := by
  intro l
  induction l using keepFirstByKey.induct with
  | case1 => rw [keepFirstByKey]; exact List.Pairwise.nil
  | case2 r rest ih =>
    rw [keepFirstByKey]
    refine List.Pairwise.cons ?_ ih
    intro x hx
    have hmem := keepFirstByKey_subset _ x hx
    have := List.of_mem_filter hmem
    simp only [bne_iff_ne, ne_eq] at this
    exact fun he => this he.symm

/-- C4.  The dedup invariant of getAllShows: whenever resolution succeeds,
the returned list is exactly the keep-the-earliest dedup of the
start-sorted resolved list, and no two returned shows share the
(start, audId, filmId) triple. -/
theorem getAllShows_dedup_spec (st : AppState) (m : List Rec)
    (h : resolvedShows st = some m) :
    getAllShows st = some (keepFirstByKey (m.insertionSort startLE))
  ∧ ∀ l, getAllShows st = some l →
      l.Pairwise (fun a b => (a.start, a.audId, a.filmId) ≠ (b.start, b.audId, b.filmId)) := by
  have h1 : getAllShows st = some (keepFirstByKey (m.insertionSort startLE)) := by
    rw [getAllShows, h, Option.map_some']
    congr 1
    rw [dedupShows_eq_keepFirstByKey]
    congr 1
    apply List.filter_eq_self.mpr
    intro a _
    rfl
  refine ⟨h1, ?_⟩
  intro l hl
  rw [h1] at hl
  have hl2 : l = keepFirstByKey (m.insertionSort startLE) := (Option.some_inj.mp hl).symm
  subst hl2
  refine (keepFirstByKey_pairwise _).imp ?_
  intro a b hne heq
  apply hne
  have h1 : a.start = b.start := congrArg Prod.fst heq
  have h2 : a.audId = b.audId := congrArg (fun p => p.2.1) heq
  have h3 : a.filmId = b.filmId := congrArg (fun p => p.2.2) heq
  rw [showKey, showKey, h1, h2, h3]

/-- C10.  The list getAllShows returns is sorted by start time: the sort
orders it and the dedup loop keeps a sublist, preserving the order. -/
theorem getAllShows_sorted (st : AppState) (l : List Rec)
    (h : getAllShows st = some l) :
    l.Pairwise (fun a b => a.start ≤ b.start) := by
  rw [getAllShows] at h
  rcases Option.map_eq_some'.mp h with ⟨m, _, hl⟩
  have hsorted : (m.insertionSort startLE).Pairwise startLE :=
    List.sorted_insertionSort startLE m
  have hsub := dedupShows_sublist (m.insertionSort startLE) []
  rw [hl] at hsub
  exact List.Pairwise.sublist hsub hsorted

/-! Field-preservation facts about the resolution stages, used to settle the
regrouping claim. -/

theorem applyStartOv_fields {st : AppState} {ov : Override} {r u1 : Rec}
    (h : applyStartOv st ov r = some u1) :
    u1.audId = r.audId ∧ u1.filmId = r.filmId ∧ u1.rowId = r.rowId ∧ u1.source = r.source := by
  unfold applyStartOv at h
  cases hs : ov.start with
  | none =>
    rw [hs] at h
    injection h with h
    subst h
    exact ⟨rfl, rfl, rfl, rfl⟩
  | some s =>
    rw [hs] at h
    cases hf : filmById st (jsOrStr ov.filmId r.filmId) with
    | none => rw [hf] at h; cases h
    | some film =>
      rw [hf] at h
      injection h with h
      subst h
      exact ⟨rfl, rfl, rfl, rfl⟩

theorem applyAudOv_misc (st : AppState) (ov : Override) (u : Rec) :
    (applyAudOv st ov u).filmId = u.filmId ∧ (applyAudOv st ov u).rowId = u.rowId
  ∧ (applyAudOv st ov u).source = u.source := by
  unfold applyAudOv
  cases ov.audId with
  | none => exact ⟨rfl, rfl, rfl⟩
  | some a => cases h : (a != 0) <;> simp [h]

theorem applyAudOv_audId (st : AppState) (ov : Override) (u : Rec) :
    (applyAudOv st ov u).audId = if jsTruthyInt ov.audId then ov.audId else u.audId := by
  unfold applyAudOv jsTruthyInt
  cases ov.audId with
  | none => simp
  | some a => cases h : (a != 0) <;> simp [h]

theorem applyFilmOv_misc (st : AppState) (ov : Override) (r u : Rec) :
    (applyFilmOv st ov r u).audId = u.audId ∧ (applyFilmOv st ov r u).rowId = u.rowId
  ∧ (applyFilmOv st ov r u).source = u.source := by
  unfold applyFilmOv
  cases ov.filmId with
  | none => exact ⟨rfl, rfl, rfl⟩
  | some f =>
    cases hc : (f != "" && some f != r.filmId) with
    | false => simp [hc]
    | true => cases hf : filmById st (some f) <;> simp [hc, hf]

theorem applyFilmOv_filmId_of_not (st : AppState) (ov : Override) (r u : Rec)
    (h : (jsTruthyStr ov.filmId && ov.filmId != r.filmId) = false) :
    (applyFilmOv st ov r u).filmId = u.filmId := by
  unfold applyFilmOv
  cases hov : ov.filmId with
  | none => rfl
  | some f =>
    rw [hov] at h
    simp only [jsTruthyStr] at h
    simp [h]

theorem regroupOv_of_false {ov : Override} {r : Rec} (u : Rec)
    (h : ((jsTruthyInt ov.audId && ov.audId != r.audId)
        || (jsTruthyStr ov.filmId && ov.filmId != r.filmId)) = false) :
    regroupOv ov r u = u := by
  unfold regroupOv
  simp [h]

theorem regroupOv_of_true {ov : Override} {r : Rec} (u : Rec)
    (h : ((jsTruthyInt ov.audId && ov.audId != r.audId)
        || (jsTruthyStr ov.filmId && ov.filmId != r.filmId)) = true) :
    regroupOv ov r u =
      { u with rowId := "OV-" ++ optIntToString (jsOrInt u.audId r.audId)
                   ++ "-" ++ optStrToString (jsOrStr u.filmId r.filmId)
               source := "Override" } := by
  unfold regroupOv
  simp [h]

/-! Concrete fixtures used by the evaluation theorems. -/

/-- A film with the seed shape; cycle = roundUp5(100+10+10) = 120. -/
def filmF1 : Film := ⟨"F1", "Thunder Road", "PG-13", 100, 10, 10, some 1, ""⟩

/-- A film so long that a 10:00 prime show inside a 07:00 to 23:00 window has
no pre or post shows (cycle = 800). -/
def filmLong : Film := ⟨"F8", "Epic", "PG", 780, 10, 10, none, ""⟩

def aud1 : Aud := ⟨1, "Aud 1", "Standard", 200⟩

def aud2 : Aud := ⟨2, "Aud 2", "Standard", 190⟩

/-- An application state with the default window, two auditoriums and one
film, and no schedule content. -/
def baseState : AppState :=
  { auds := [aud1, aud2], films := [filmF1], primeRows := [], extraRows := []
    manualShows := [], overrides := [], hiddenShows := [], undoStack := []
    firstShowHM := ⟨7, 0⟩, lastShowHM := ⟨23, 0⟩, scheduleByDate := [], currentDate := none }

/-- A manual show on film F1 in auditorium 1 starting 10:00. -/
def msF1 : Rec :=
  ⟨"M-1", "EX-1", 0, some 1, "Aud 1", some "F1", "Thunder Road", 600, 710, 100, 10, 10, 120, "Manual"⟩

/-- A state holding one manual show whose override has a start and a film id
that no film in the catalog carries. -/
def stCrash : AppState :=
  { baseState with manualShows := [msF1]
                   overrides := [("M-1", ⟨some 700, none, some "F9"⟩)] }

/-- A state with a single generated show R1:0 (row R1, film F8, aud 1, prime
10:00) and an override moving that show to auditorium 2. -/
def stRegroup : AppState :=
  { baseState with films := [filmLong]
                   extraRows := [⟨"R1", none, "1", some "F8", some 1, some ⟨10, 0⟩⟩]
                   overrides := [("R1:0", ⟨none, some 2, none⟩)] }

/-- C7.  Resolution is not error free: when an override carries both a start
and a film id that matches no film in the catalog, getAllShows dereferences
the failed film lookup (endOfMovie of null) and throws, modelled as none;
dropping the override resolves the same state without error. -/
theorem getAllShows_missing_film_crash :
    getAllShows stCrash = none
  ∧ filmById stCrash (some "F9") = none
  ∧ getAllShows { stCrash with overrides := [] } = some [msF1] := by
  refine ⟨by decide, by decide, by decide⟩

/-- C5.  Dynamic regrouping: if resolution gave a show an auditorium or film
different from its base record, then the resolved show is tagged Override and
its rowId is the synthetic identifier built from the destination pair alone,
so any two shows resolved to the same destination share one dynamic rowId;
the concrete scenario of the spec (row R1, moved to auditorium 2) yields
rowId OV-2-F1 distinct from R1. -/
theorem resolveShow_regroup_spec :
    (∀ (st : AppState) (r : Rec) (ov : Override) (u : Rec),
        lookupOverride st r.id = some ov →
        resolveShow st r = some u →
        (u.audId ≠ r.audId ∨ u.filmId ≠ r.filmId) →
        u.source = "Override" ∧
        u.rowId = "OV-" ++ optIntToString (jsOrInt u.audId r.audId)
                  ++ "-" ++ optStrToString (jsOrStr u.filmId r.filmId))
  ∧ (∀ (st : AppState) (r1 : Rec) (ov1 : Override) (u1 : Rec)
        (r2 : Rec) (ov2 : Override) (u2 : Rec),
        lookupOverride st r1.id = some ov1 → resolveShow st r1 = some u1 →
        (u1.audId ≠ r1.audId ∨ u1.filmId ≠ r1.filmId) →
        lookupOverride st r2.id = some ov2 → resolveShow st r2 = some u2 →
        (u2.audId ≠ r2.audId ∨ u2.filmId ≠ r2.filmId) →
        jsOrInt u1.audId r1.audId = jsOrInt u2.audId r2.audId →
        jsOrStr u1.filmId r1.filmId = jsOrStr u2.filmId r2.filmId →
        u1.rowId = u2.rowId)
  ∧ ((getAllShows stRegroup).map (List.map (fun u => (u.rowId, u.source, u.audId)))
        = some [("OV-2-F8", "Override", some 2)]
      ∧ ("OV-2-F8" : String) ≠ "R1") := by
  have main : ∀ (st : AppState) (r : Rec) (ov : Override) (u : Rec),
      lookupOverride st r.id = some ov →
      resolveShow st r = some u →
      (u.audId ≠ r.audId ∨ u.filmId ≠ r.filmId) →
      u.source = "Override" ∧
      u.rowId = "OV-" ++ optIntToString (jsOrInt u.audId r.audId)
                ++ "-" ++ optStrToString (jsOrStr u.filmId r.filmId) := by
    intro st r ov u hov hres hdiff
    unfold resolveShow at hres
    rw [hov] at hres
    rcases Option.map_eq_some'.mp hres with ⟨u1, hstart, hu⟩
    obtain ⟨ha1, hf1, _, _⟩ := applyStartOv_fields hstart
    cases hcond : ((jsTruthyInt ov.audId && ov.audId != r.audId)
        || (jsTruthyStr ov.filmId && ov.filmId != r.filmId)) with
    | false =>
      exfalso
      have hu3 : u = applyFilmOv st ov r (applyAudOv st ov u1) := by
        rw [← hu, regroupOv_of_false _ hcond]
      rcases Bool.or_eq_false_iff.mp hcond with ⟨hca, hcf⟩
      have haud : u.audId = r.audId := by
        rw [hu3, (applyFilmOv_misc st ov r (applyAudOv st ov u1)).1, applyAudOv_audId]
        cases ht : jsTruthyInt ov.audId with
        | false => simp [ha1]
        | true =>
          rw [ht, Bool.true_and] at hca
          have heq : ov.audId = r.audId := bne_eq_false_iff_eq.mp hca
          simp [heq]
      have hfilm : u.filmId = r.filmId := by
        rw [hu3, applyFilmOv_filmId_of_not st ov r _ hcf,
          (applyAudOv_misc st ov u1).1, hf1]
      rcases hdiff with hd | hd
      · exact hd haud
      · exact hd hfilm
    | true =>
      have hu' : u = { (applyFilmOv st ov r (applyAudOv st ov u1)) with
          rowId := "OV-"
              ++ optIntToString (jsOrInt (applyFilmOv st ov r (applyAudOv st ov u1)).audId r.audId)
              ++ "-"
              ++ optStrToString (jsOrStr (applyFilmOv st ov r (applyAudOv st ov u1)).filmId r.filmId)
          source := "Override" } := by
        rw [← hu, regroupOv_of_true _ hcond]
      constructor
      · rw [hu']
      · rw [hu']
  refine ⟨main, ?_, by decide, by decide⟩
  intro st r1 ov1 u1 r2 ov2 u2 h1 h2 h3 h4 h5 h6 heqa heqf
  have e1 := (main st r1 ov1 u1 h1 h2 h3).2
  have e2 := (main st r2 ov2 u2 h4 h5 h6).2
  rw [e1, e2, heqa, heqf]

/-- Witness for the regrouping theorem: the generated show of stRegroup. -/
def recR1 : Rec := makeRec ⟨"R1", none, "1", some "F8", some 1, some ⟨10, 0⟩⟩ 0 600 filmLong aud1

/-- The resolved form of recR1 under the auditorium-2 override. -/
def uR1 : Rec := { recR1 with audId := some 2, audName := "Aud 2", rowId := "OV-2-F8", source := "Override" }

theorem resolveShow_regroup_spec_witness :
    lookupOverride stRegroup recR1.id = some ⟨none, some 2, none⟩
  ∧ resolveShow stRegroup recR1 = some uR1
  ∧ uR1.audId ≠ recR1.audId
  ∧ (uR1.source = "Override" ∧
      uR1.rowId = "OV-" ++ optIntToString (jsOrInt uR1.audId recR1.audId)
                  ++ "-" ++ optStrToString (jsOrStr uR1.filmId recR1.filmId)) :=
  ⟨by decide, by decide, by decide,
    resolveShow_regroup_spec.1 stRegroup recR1 ⟨none, some 2, none⟩ uR1
      (by decide) (by decide) (Or.inl (by decide))⟩

/-! The mutation entry points and the undo engine. -/

/-- Insert an id into the hidden set; JS sets the object key to true, which
is idempotent. -/
def insertIfAbsent (l : List String) (x : String) : List String :=
  if l.contains x then l else l ++ [x]

/-- Delete an id from the hidden set (the JS delete of the object key). -/
def removeAll (l : List String) (x : String) : List String :=
  l.filter (fun y => !(y == x))

/-- Write-or-create of an override entry: patch the existing object, else
insert a fresh one (JS object key assignment keeps the key position; a new
key is appended). -/
def upsertOverride (ovs : List (String × Override)) (id : String)
    (upd : Override → Override) (init : Override) : List (String × Override) :=
  if ovs.any (fun p => p.1 == id) then
    ovs.map (fun p => if p.1 == id then (p.1, upd p.2) else p)
  else ovs ++ [(id, init)]

/-- Drop the override entry for id when it has become the empty object. -/
def dropOverrideIfEmpty (ovs : List (String × Override)) (id : String) :
    List (String × Override) :=
  ovs.filter (fun p => !(p.1 == id && p.2 == emptyOverride))

/-- Delete the audId field of the override for id, dropping the entry when it
becomes empty (the undo and clear paths of updateShowAud). -/
def clearOvAud (ovs : List (String × Override)) (id : String) : List (String × Override) :=
  dropOverrideIfEmpty
    (ovs.map (fun p => if p.1 == id then (p.1, { p.2 with audId := none }) else p)) id

/-- Delete the filmId field of the override for id, dropping the entry when
it becomes empty. -/
def clearOvFilm (ovs : List (String × Override)) (id : String) : List (String × Override) :=
  dropOverrideIfEmpty
    (ovs.map (fun p => if p.1 == id then (p.1, { p.2 with filmId := none }) else p)) id

/-- Whether the override for id carries an audId field (the JS
hasOwnProperty check; an undefined-valued key is conflated with absence). -/
def hasAudField (st : AppState) (id : String) : Bool :=
  match lookupOverride st id with
  | some o => o.audId.isSome
  | none => false

/-- Whether the override for id carries a filmId field. -/
def hasFilmField (st : AppState) (id : String) : Bool :=
  match lookupOverride st id with
  | some o => o.filmId.isSome
  | none => false

/-- Remove the film override when the stored filmId is truthy (the guard
state.overrides[sid] && state.overrides[sid].filmId of the undo path). -/
def removeTruthyFilmOv (ovs : List (String × Override)) (id : String) :
    List (String × Override) :=
  if jsTruthyStr ((lookupOv ovs id).bind (fun o => o.filmId)) then clearOvFilm ovs id else ovs

/-- Replace the first manual show carrying the given id (the JS findIndex
plus in-place assignment). -/
def updateFirstRec : List Rec → String → (Rec → Rec) → List Rec
  | [], _, _ => []
  | r :: rest, id, f => if r.id == id then f r :: rest else r :: updateFirstRec rest id f

/-- Remove the first manual show carrying the given id (the JS splice). -/
def removeFirstRec : List Rec → String → List Rec
  | [], _ => []
  | r :: rest, id => if r.id == id then rest else r :: removeFirstRec rest id

/-- The snapshot of the top-level schedule fields, as written into
scheduleByDate by save() and saveCurrentSchedule(). -/
def schedOfTop (st : AppState) : Sched :=
  ⟨st.primeRows, st.extraRows, st.manualShows, st.overrides, st.hiddenShows, st.undoStack⟩

/-- JS object assignment on the by-date map: replace in place or append. -/
def setSched (m : List (String × Sched)) (k : String) (v : Sched) : List (String × Sched) :=
  if m.any (fun p => p.1 == k) then m.map (fun p => if p.1 == k then (k, v) else p)
  else m ++ [(k, v)]

/-- Mirrors getSched reads state.scheduleByDate[k]. -/
def getSched (m : List (String × Sched)) (k : String) : Option Sched :=
  (m.find? (fun p => p.1 == k)).map (fun p => p.2)

/-- Mirrors pruneOldSchedules in app.js: when more than 14 dates are stored,
delete the lexicographically smallest keys beyond the retention limit. -/
def pruneOldSchedules (m : List (String × Sched)) : List (String × Sched) :=
  if m.length ≤ 14 then m
  else
    let sortedKeys := (m.map (fun p => p.1)).insertionSort (fun a b => a ≤ b)
    let toDelete := sortedKeys.take (m.length - 14)
    m.filter (fun p => !(toDelete.contains p.1))

/-- Mirrors the scheduleByDate part of save() in app.js: when a current date
is set, store the top-level schedule fields under it and prune.  The
localStorage write and the DOM event are external effects outside the model. -/
def saveWrite (st : AppState) : AppState :=
  match st.currentDate with
  | none => st
  | some d =>
    { st with scheduleByDate := pruneOldSchedules (setSched st.scheduleByDate d (schedOfTop st)) }

/-- Mirrors saveCurrentSchedule in app.js (same state effect as the
scheduleByDate part of save). -/
def saveCurrentSchedule (st : AppState) : AppState :=
  match st.currentDate with
  | none => st
  | some d =>
    { st with scheduleByDate := pruneOldSchedules (setSched st.scheduleByDate d (schedOfTop st)) }

/-- Mirrors updateShowStart in app.js.  hm = none models the empty string,
which hides the show.  A state on which getAllShows throws, or an unknown
show id, leaves the state unchanged (the JS code throws or returns before
mutating anything). -/
def updateShowStart (st : AppState) (showId : String) (hm : Option HM) : AppState :=
  match getAllShows st with
  | none => st
  | some shows =>
    match shows.find? (fun r => r.id == showId) with
    | none => st
    | some shw =>
      match hm with
      | none =>
        saveWrite { st with
          undoStack := UndoEntry.hide showId (st.hiddenShows.contains showId) :: st.undoStack
          hiddenShows := insertIfAbsent st.hiddenShows showId }
      | some hmv =>
        saveWrite { st with
          undoStack := UndoEntry.edit showId
              (((lookupOverride st showId).bind (fun o => o.start)).getD shw.start) :: st.undoStack
          overrides := upsertOverride st.overrides showId
              (fun o => { o with start := some (dtFromHM hmv) })
              { emptyOverride with start := some (dtFromHM hmv) } }

/-- Mirrors updateShowAud in app.js; the audIdArg is the already-parsed
auditorium id, none for the null, undefined or empty argument. -/
def updateShowAud (st : AppState) (showId : String) (audIdArg : Option Int) : AppState :=
  match getAllShows st with
  | none => st
  | some shows =>
    match shows.find? (fun r => r.id == showId) with
    | none => st
    | some shw =>
      let prevAud := jsOrInt ((lookupOverride st showId).bind (fun o => o.audId)) shw.audId
      if shw.source == "Manual" && st.manualShows.any (fun x => x.id == showId) then
        let targetAud := match audIdArg with
          | none => prevAud
          | some a => some a
        if targetAud == prevAud then st
        else
          saveWrite { st with
            undoStack := UndoEntry.moveAud showId prevAud :: st.undoStack
            manualShows := updateFirstRec st.manualShows showId (fun ms =>
              { ms with audId := targetAud
                        audName := match audById st targetAud with
                                   | some audObj => audObj.name
                                   | none => "" }) }
      else
        match audIdArg with
        | none =>
          if hasAudField st showId then
            saveWrite { st with
              undoStack := UndoEntry.moveAud showId prevAud :: st.undoStack
              overrides := clearOvAud st.overrides showId }
          else st
        | some a =>
          if some a == prevAud then st
          else
            saveWrite { st with
              undoStack := UndoEntry.moveAud showId prevAud :: st.undoStack
              overrides := upsertOverride st.overrides showId
                  (fun o => { o with audId := some a }) { emptyOverride with audId := some a } }

/-- Mirrors updateShowFilm in app.js; filmIdArg = none or some "" models the
null, undefined or empty argument, which the JS code normalises to null. -/
def updateShowFilm (st : AppState) (showId : String) (filmIdArg : Option String) : AppState :=
  match getAllShows st with
  | none => st
  | some shows =>
    match shows.find? (fun r => r.id == showId) with
    | none => st
    | some shw =>
      let newFilmId := match filmIdArg with
        | none => none
        | some s => if s == "" then none else some s
      let prevFilmId := jsOrStr ((lookupOverride st showId).bind (fun o => o.filmId)) shw.filmId
      if newFilmId == prevFilmId then st
      else if shw.source == "Manual" && st.manualShows.any (fun x => x.id == showId) then
        match newFilmId with
        | none =>
          saveWrite { st with undoStack := UndoEntry.editFilm showId prevFilmId :: st.undoStack }
        | some nf =>
          match filmById st (some nf) with
          | none =>
            { st with undoStack := UndoEntry.editFilm showId prevFilmId :: st.undoStack }
          | some filmObj =>
            saveWrite { st with
              undoStack := UndoEntry.editFilm showId prevFilmId :: st.undoStack
              manualShows := updateFirstRec st.manualShows showId (fun ms =>
                { ms with filmId := some filmObj.id
                          filmTitle := filmObj.title ++ fmtSuffix filmObj
                          runtime := filmObj.runtime
                          trailer := filmObj.trailer
                          clean := filmObj.clean
                          cycle := cycleMinutes filmObj
                          endT := endOfMovie ms.start filmObj }) }
      else
        match newFilmId with
        | none =>
          if hasFilmField st showId then
            saveWrite { st with
              undoStack := UndoEntry.editFilm showId prevFilmId :: st.undoStack
              overrides := clearOvFilm st.overrides showId }
          else st
        | some nf =>
          saveWrite { st with
            undoStack := UndoEntry.editFilm showId prevFilmId :: st.undoStack
            overrides := upsertOverride st.overrides showId
                (fun o => { o with filmId := some nf }) { emptyOverride with filmId := some nf } }

/-- Mirrors addManualShow in app.js.  The fresh id M-timestamp-random is a
parameter of the model. -/
def addManualShow (st : AppState) (rowId : String) (hm : HM) (freshId : String) : AppState :=
  match (st.primeRows ++ st.extraRows).find? (fun r => r.rowId == rowId) with
  | none => st
  | some row =>
    match filmById st row.filmId, audById st row.audId with
    | some film, some aud =>
      saveWrite { st with
        manualShows := st.manualShows ++
          [{ id := freshId, rowId := rowId, offset := 0, audId := some aud.id
             audName := aud.name, filmId := some film.id
             filmTitle := film.title ++ fmtSuffix film
             start := dtFromHM hm, endT := endOfMovie (dtFromHM hm) film
             runtime := film.runtime, trailer := film.trailer, clean := film.clean
             cycle := cycleMinutes film, source := "Manual" }]
        undoStack := UndoEntry.manual
          { id := freshId, rowId := rowId, offset := 0, audId := some aud.id
            audName := aud.name, filmId := some film.id
            filmTitle := film.title ++ fmtSuffix film
            start := dtFromHM hm, endT := endOfMovie (dtFromHM hm) film
            runtime := film.runtime, trailer := film.trailer, clean := film.clean
            cycle := cycleMinutes film, source := "Manual" } :: st.undoStack }
    | _, _ => st

/-- Mirrors undo in app.js.  The pop happens first; on the branches that
re-resolve the schedule (moveAud and the override arm of editFilm) a thrown
getAllShows leaves the stack popped and nothing reverted, because the JS
exception escapes after the pop. -/
def undo (st : AppState) : AppState :=
  match st.undoStack with
  | [] => st
  | entry :: rest =>
    let st1 : AppState := { st with undoStack := rest }
    match entry with
    | UndoEntry.edit sid prevStart =>
      saveWrite { st1 with
        overrides := upsertOverride st1.overrides sid
            (fun o => { o with start := some prevStart })
            { emptyOverride with start := some prevStart } }
    | UndoEntry.hide sid prevHidden =>
      saveWrite { st1 with
        hiddenShows := if prevHidden then insertIfAbsent st1.hiddenShows sid
                       else removeAll st1.hiddenShows sid }
    | UndoEntry.manual shw =>
      saveWrite { st1 with manualShows := removeFirstRec st1.manualShows shw.id }
    | UndoEntry.moveAud sid prev =>
      match getAllShows st1 with
      | none => st1
      | some shows =>
        if prev == ((shows.find? (fun r => r.id == sid)).bind (fun r => r.audId)) then
          saveWrite { st1 with overrides := clearOvAud st1.overrides sid }
        else
          saveWrite { st1 with
            overrides := upsertOverride st1.overrides sid
                (fun o => { o with audId := prev }) { emptyOverride with audId := prev } }
    | UndoEntry.editFilm sid prevFilm =>
      if st1.manualShows.any (fun x => x.id == sid) then
        saveWrite { st1 with
          manualShows := match prevFilm with
            | some pf =>
              match filmById st1 (some pf) with
              | some filmObj =>
                updateFirstRec st1.manualShows sid (fun ms =>
                  { ms with filmId := some filmObj.id
                            filmTitle := filmObj.title ++ fmtSuffix filmObj
                            runtime := filmObj.runtime
                            trailer := filmObj.trailer
                            clean := filmObj.clean
                            cycle := cycleMinutes filmObj
                            endT := endOfMovie ms.start filmObj })
              | none => st1.manualShows
            | none => st1.manualShows }
      else
        match prevFilm with
        | none => saveWrite { st1 with overrides := removeTruthyFilmOv st1.overrides sid }
        | some pf =>
          if pf == "" then saveWrite { st1 with overrides := removeTruthyFilmOv st1.overrides sid }
          else
            match getAllShows st1 with
            | none => st1
            | some shows =>
              if some pf == ((shows.find? (fun r => r.id == sid)).bind (fun r => r.filmId)) then
                saveWrite { st1 with overrides := removeTruthyFilmOv st1.overrides sid }
              else
                saveWrite { st1 with
                  overrides := upsertOverride st1.overrides sid
                      (fun o => { o with filmId := some pf })
                      { emptyOverride with filmId := some pf } }

/-! Concrete states for the generation witness and the mutation claims. -/

/-- A film whose cycle is 150 minutes (the basic-cycle scenario of the spec). -/
def filmW : Film := ⟨"FW", "Wide", "", 120, 15, 15, none, ""⟩

/-- A row anchored at 19:00 on filmW in auditorium 1. -/
def rowW : Row := ⟨"R1", none, "1", some "FW", some 1, some ⟨19, 0⟩⟩

/-- The basic-cycle scenario state: window 07:00 to 23:00, one row. -/
def stW : AppState := { baseState with films := [filmW], extraRows := [rowW] }

theorem buildRowShowtimes_spec_witness :
    filmById stW rowW.filmId = some filmW
  ∧ audById stW rowW.audId = some aud1
  ∧ rowW.primeHM = some ⟨19, 0⟩
  ∧ 0 < cycleMinutes filmW
  ∧ windowFirst stW ≤ dtFromHM ⟨19, 0⟩
  ∧ dtFromHM ⟨19, 0⟩ < windowLast stW
  ∧ ((buildRowShowtimes stW rowW).length : Int)
      = preCountOf stW ⟨19, 0⟩ filmW + 1 + postCountOf stW ⟨19, 0⟩ filmW
  ∧ (buildRowShowtimes stW rowW).length = 6
  ∧ ∀ r ∈ buildRowShowtimes stW rowW, ∃ k : Int,
      r.start = dtFromHM ⟨19, 0⟩ + k * cycleMinutes filmW := by
  have h := (buildRowShowtimes_spec stW rowW).2.2 filmW aud1 ⟨19, 0⟩
    (by decide) (by decide) (by decide) (by decide) (by decide) (by decide)
  exact ⟨by decide, by decide, by decide, by decide, by decide, by decide,
    h.2.1, by decide, h.2.2⟩

/-- A state with exactly one manual show (film F1, auditorium 1, 10:00). -/
def stM : AppState := { baseState with manualShows := [msF1] }

/-- C2.  Undo does not invert an auditorium move of a manual show: moving the
manual show M-1 from auditorium 1 to 2 and undoing restores the effective
auditorium by writing an audId override onto the manual show instead of
restoring the record, so the resolved list comes back regrouped (rowId
OV-1-F1, source Override) instead of equal to its pre-mutation value, even
though exactly one undo entry was pushed and popped. -/
theorem undo_moveAud_manual_bug :
    ((getAllShows stM).map (List.map (fun r => (r.rowId, r.source, r.audId))))
      = some [("EX-1", "Manual", some 1)]
  ∧ (updateShowAud stM "M-1" (some 2)).undoStack
      = [UndoEntry.moveAud "M-1" (some 1)]
  ∧ (undo (updateShowAud stM "M-1" (some 2))).undoStack = []
  ∧ ((getAllShows (undo (updateShowAud stM "M-1" (some 2)))).map
        (List.map (fun r => (r.rowId, r.source, r.audId))))
      = some [("OV-1-F1", "Override", some 1)]
  ∧ getAllShows (undo (updateShowAud stM "M-1" (some 2))) ≠ getAllShows stM :=
  ⟨by decide, by decide, by decide, by decide, by decide⟩

/-- C3 counterexample.  updateShowStart makes no equal-value check: the
manual show M-1 starts at 600 (10:00) and requesting the same 10:00 start
still pushes an edit UndoEntry and writes a start override, so the call is
not a no-op. -/
theorem updateShowStart_pushes_on_equal :
    ((getAllShows stM).bind (fun l => (l.find? (fun r => r.id == "M-1")).map (fun r => r.start)))
      = some 600
  ∧ dtFromHM ⟨10, 0⟩ = 600
  ∧ (updateShowStart stM "M-1" (some ⟨10, 0⟩)).undoStack = [UndoEntry.edit "M-1" 600]
  ∧ updateShowStart stM "M-1" (some ⟨10, 0⟩) ≠ stM :=
  ⟨by decide, by decide, by decide, by decide⟩

/-- The scheduleByDate write of save() never touches the undo stack. -/
theorem saveWrite_undoStack (s : AppState) : (saveWrite s).undoStack = s.undoStack := by
  unfold saveWrite
  cases s.currentDate <;> rfl

/-- C3 amended.  updateShowAud and updateShowFilm with a non-null requested
value are no-ops leaving the state unchanged and pushing nothing when the
requested value equals the current effective value, and push exactly one
UndoEntry holding the previous effective value otherwise; updateShowStart
performs no equality check and pushes exactly one entry (edit, or hide for
the empty argument) on every call that finds the show. -/
theorem mutation_undo_entries :
    (∀ (st : AppState) (showId : String) (a : Int) (shows : List Rec) (shw : Rec),
       getAllShows st = some shows →
       shows.find? (fun r => r.id == showId) = some shw →
       jsOrInt ((lookupOverride st showId).bind (fun o => o.audId)) shw.audId = some a →
       updateShowAud st showId (some a) = st)
  ∧ (∀ (st : AppState) (showId : String) (a : Int) (shows : List Rec) (shw : Rec),
       getAllShows st = some shows →
       shows.find? (fun r => r.id == showId) = some shw →
       jsOrInt ((lookupOverride st showId).bind (fun o => o.audId)) shw.audId ≠ some a →
       (updateShowAud st showId (some a)).undoStack
         = UndoEntry.moveAud showId
             (jsOrInt ((lookupOverride st showId).bind (fun o => o.audId)) shw.audId)
           :: st.undoStack)
  ∧ (∀ (st : AppState) (showId : String) (f : String) (shows : List Rec) (shw : Rec),
       getAllShows st = some shows →
       shows.find? (fun r => r.id == showId) = some shw →
       f ≠ "" →
       jsOrStr ((lookupOverride st showId).bind (fun o => o.filmId)) shw.filmId = some f →
       updateShowFilm st showId (some f) = st)
  ∧ (∀ (st : AppState) (showId : String) (f : String) (shows : List Rec) (shw : Rec),
       getAllShows st = some shows →
       shows.find? (fun r => r.id == showId) = some shw →
       f ≠ "" →
       jsOrStr ((lookupOverride st showId).bind (fun o => o.filmId)) shw.filmId ≠ some f →
       (updateShowFilm st showId (some f)).undoStack
         = UndoEntry.editFilm showId
             (jsOrStr ((lookupOverride st showId).bind (fun o => o.filmId)) shw.filmId)
           :: st.undoStack)
  ∧ (∀ (st : AppState) (showId : String) (hmv : HM) (shows : List Rec) (shw : Rec),
       getAllShows st = some shows →
       shows.find? (fun r => r.id == showId) = some shw →
       (updateShowStart st showId (some hmv)).undoStack
         = UndoEntry.edit showId
             (((lookupOverride st showId).bind (fun o => o.start)).getD shw.start)
           :: st.undoStack)
  ∧ (∀ (st : AppState) (showId : String) (shows : List Rec) (shw : Rec),
       getAllShows st = some shows →
       shows.find? (fun r => r.id == showId) = some shw →
       (updateShowStart st showId none).undoStack
         = UndoEntry.hide showId (st.hiddenShows.contains showId) :: st.undoStack) := by
  refine ⟨?_, ?_, ?_, ?_, ?_, ?_⟩
  · intro st showId a shows shw hga hfind hp
    unfold updateShowAud
    rw [hga]
    simp only [hfind, hp]
    cases hb : (shw.source == "Manual" && st.manualShows.any (fun x => x.id == showId)) <;>
      simp [hb]
  · intro st showId a shows shw hga hfind hp
    have hpb : ((some a : Option Int) == jsOrInt ((lookupOverride st showId).bind (fun o => o.audId)) shw.audId) = false :=
      beq_eq_false_iff_ne.mpr (fun h => hp h.symm)
    unfold updateShowAud
    rw [hga]
    simp only [hfind]
    cases hb : (shw.source == "Manual" && st.manualShows.any (fun x => x.id == showId)) <;>
      simp [hb, hpb, saveWrite_undoStack]
  · intro st showId f shows shw hga hfind hf hp
    have hfb : (f == "") = false := beq_eq_false_iff_ne.mpr hf
    unfold updateShowFilm
    rw [hga]
    simp only [hfind, hfb, Bool.false_eq_true, if_false, hp]
    simp
  · intro st showId f shows shw hga hfind hf hp
    have hfb : (f == "") = false := beq_eq_false_iff_ne.mpr hf
    have hpb : ((some f : Option String) == jsOrStr ((lookupOverride st showId).bind (fun o => o.filmId)) shw.filmId) = false :=
      beq_eq_false_iff_ne.mpr (fun h => hp h.symm)
    unfold updateShowFilm
    rw [hga]
    simp only [hfind, hfb, Bool.false_eq_true, if_false]
    simp only [hpb, Bool.false_eq_true, if_false]
    cases hb : (shw.source == "Manual" && st.manualShows.any (fun x => x.id == showId)) with
    | false => simp [hb, saveWrite_undoStack]
    | true =>
      simp only [hb, if_true]
      cases hlf : filmById st (some f) <;> simp [saveWrite_undoStack]
  · intro st showId hmv shows shw hga hfind
    unfold updateShowStart
    rw [hga]
    simp [hfind, saveWrite_undoStack]
  · intro st showId shows shw hga hfind
    unfold updateShowStart
    rw [hga]
    simp [hfind, saveWrite_undoStack]

theorem mutation_undo_entries_witness :
    getAllShows stM = some [msF1]
  ∧ [msF1].find? (fun r => r.id == "M-1") = some msF1
  ∧ jsOrInt ((lookupOverride stM "M-1").bind (fun o => o.audId)) msF1.audId = some 1
  ∧ updateShowAud stM "M-1" (some 1) = stM :=
  ⟨by decide, by decide, by decide,
    mutation_undo_entries.1 stM "M-1" 1 [msF1] msF1 (by decide) (by decide) (by decide)⟩

/-! The recurrence caps (claim C9): the prime-page render loops and the
generation bound. -/

/-- The pre-times while loop of the prime page render: step backwards from
the prime by the cycle while the time stays at or after the window start and
fewer than 50 steps were taken.  The fuel argument is 50 minus the number of
completed steps. -/
def preStepLoop : Nat → Int → Int → Int → List Int
  | 0, _, _, _ => []
  | fuel + 1, t, firstW, cycle =>
    if firstW ≤ t then t :: preStepLoop fuel (t - cycle) firstW cycle else []

/-- The pre-times collected by the render loop (part_001 lines 633-640). -/
def renderPreTimes (primeStart firstW cycle : Int) : List Int :=
  preStepLoop 50 (primeStart - cycle) firstW cycle

/-- The post-times while loop of the prime page render (part_001 lines
697-704). -/
def postStepLoop : Nat → Int → Int → Int → List Int
  | 0, _, _, _ => []
  | fuel + 1, t, lastW, cycle =>
    if t ≤ lastW then t :: postStepLoop fuel (t + cycle) lastW cycle else []

/-- The post-times collected by the render loop. -/
def renderPostTimes (primeStart lastW cycle : Int) : List Int :=
  postStepLoop 50 (primeStart + cycle) lastW cycle

theorem preStepLoop_length_le : ∀ (fuel : Nat) (t f c : Int),
    (preStepLoop fuel t f c).length ≤ fuel := by
  intro fuel
  induction fuel with
  | zero => intro t f c; rw [preStepLoop]; exact Nat.le_refl 0
  | succ n ih =>
    intro t f c
    rw [preStepLoop]
    by_cases h : f ≤ t
    · rw [if_pos h]
      exact Nat.succ_le_succ (ih (t - c) f c)
    · rw [if_neg h]
      exact Nat.zero_le _
theorem postStepLoop_length_le : ∀ (fuel : Nat) (t l c : Int),
    (postStepLoop fuel t l c).length ≤ fuel := by
  intro fuel
  induction fuel with
  | zero => intro t l c; rw [postStepLoop]; exact Nat.le_refl 0
  | succ n ih =>
    intro t l c
    rw [postStepLoop]
    by_cases h : t ≤ l
    · rw [if_pos h]
      exact Nat.succ_le_succ (ih (t + c) l c)
    · rw [if_neg h]
      exact Nat.zero_le _

/-- The pre-show loop bound of buildRowShowtimes, extracted from the row. -/
def preCountNat (st : AppState) (row : Row) : Nat :=
  match filmById st row.filmId, audById st row.audId, row.primeHM with
  | some film, some _, some phm =>
    if cycleMinutes film ≤ 0 then 0 else (preCountOf st phm film).toNat
  | _, _, _ => 0

/-- The post-show loop bound of buildRowShowtimes. -/
def postCountNat (st : AppState) (row : Row) : Nat :=
  match filmById st row.filmId, audById st row.audId, row.primeHM with
  | some film, some _, some phm =>
    if cycleMinutes film ≤ 0 then 0 else (postCountOf st phm film).toNat
  | _, _, _ => 0

/-- C9 amended.  The hard 50-step ceiling lives only in the prime-page
render loops, which collect at most 50 pre-times and at most 50 post-times;
buildRowShowtimes itself has no such ceiling but always terminates, emitting
at most preCount pre-shows, the prime show and at most postCount post-shows. -/
theorem generation_bounds :
    (∀ (p first cycle : Int), (renderPreTimes p first cycle).length ≤ 50)
  ∧ (∀ (p last cycle : Int), (renderPostTimes p last cycle).length ≤ 50)
  ∧ (∀ (st : AppState) (row : Row),
       (buildRowShowtimes st row).length ≤ preCountNat st row + 1 + postCountNat st row) := by
  refine ⟨?_, ?_, ?_⟩
  · intro p first cycle
    exact preStepLoop_length_le 50 (p - cycle) first cycle
  · intro p last cycle
    exact postStepLoop_length_le 50 (p + cycle) last cycle
  · intro st row
    rw [buildRowShowtimes.eq_def, preCountNat, postCountNat]
    cases hf : filmById st row.filmId <;> cases ha : audById st row.audId <;>
      cases hp : row.primeHM <;> simp only []
    case some.some.some film aud phm =>
      by_cases hc : cycleMinutes film ≤ 0
      · simp [hc]
      · rw [if_neg hc, if_neg hc, if_neg hc]
        have h1 := List.length_filterMap_le
          (fun (j : Nat) =>
            if dtFromHM phm - (preCountOf st phm film - (j : Int)) * cycleMinutes film < windowFirst st
            then none
            else some (makeRec row (-(preCountOf st phm film - (j : Int)))
                   (dtFromHM phm - (preCountOf st phm film - (j : Int)) * cycleMinutes film) film aud))
          (List.range (preCountOf st phm film).toNat)
        have h2 := List.length_filterMap_le
          (fun (j : Nat) =>
            if windowLast st < dtFromHM phm + ((j : Int) + 1) * cycleMinutes film
            then none
            else some (makeRec row ((j : Int) + 1)
                   (dtFromHM phm + ((j : Int) + 1) * cycleMinutes film) film aud))
          (List.range (postCountOf st phm film).toNat)
        simp only [List.length_range] at h1 h2
        simp only [List.length_append, List.length_singleton]
        omega
    all_goals simp

/-- A film of cycle 5 minutes (runtime 1, rounded up to 5). -/
def filmShort : Film := ⟨"F2", "Short", "", 1, 0, 0, none, ""⟩

/-- A row anchored at 23:00 on the 5-minute film. -/
def rowC9 : Row := ⟨"R9", none, "1", some "F2", some 1, some ⟨23, 0⟩⟩

/-- A state whose window 18:00 to 23:00 makes the 23:00 prime of rowC9 sit
300 minutes past the window start with a 5-minute cycle. -/
def stC9 : AppState :=
  { baseState with films := [filmShort], extraRows := [rowC9], firstShowHM := ⟨18, 0⟩ }

/-- C9 counterexample.  buildRowShowtimes emits 60 pre-shows for rowC9 (a
5-minute cycle over a 300-minute span), exceeding the claimed 50-per-
direction cap. -/
theorem buildRowShowtimes_exceeds_cap :
    ((buildRowShowtimes stC9 rowC9).filter (fun r => decide (r.offset < 0))).length = 60
  ∧ (buildRowShowtimes stC9 rowC9).length = 61 :=
  ⟨by decide, by decide⟩

/-! The downtime analyzer (computeFlaggedIssues in dashboard.js). -/

/-- The per-show data the analyzer keeps when grouping by auditorium. -/
structure GapShow where
  start : Int
  endT : Int
  audName : String
deriving DecidableEq

/-- A flagged issue; type is late, gap or huge. -/
structure Issue where
  audName : String
  type : String
  message : String
  minutes : Int
deriving DecidableEq

/-- Mirrors normalizeDateForGap in dashboard.js: instants before 05:00
belong to the next calendar day. -/
def normalizeDateForGap (t : Int) : Int :=
  if hourOfInstant t < 5 then t + 1440 else t

/-- Two-digit padding of a minute count (the JS padStart(2, "0")). -/
def pad2 (n : Int) : String :=
  if n < 10 then "0" ++ toString n else toString n

/-- Mirrors formatDuration in dashboard.js (HhMMm). -/
def formatDuration (mins : Int) : String :=
  toString (mins / 60) ++ "h" ++ pad2 (mins % 60) ++ "m"

/-- Mirrors to12 in app.js: 12-hour clock display with am or pm suffix. -/
def to12 (t : Int) : String :=
  (toString (if hourOfInstant t % 12 = 0 then 12 else hourOfInstant t % 12))
  ++ ":" ++ pad2 (t % 60)
  ++ (if 12 ≤ hourOfInstant t then "pm" else "am")

/-- The order the analyzer sorts each auditorium group by: normalized start. -/
def normLE (a b : GapShow) : Prop :=
  normalizeDateForGap a.start ≤ normalizeDateForGap b.start

instance : DecidableRel normLE :=
  fun a b => inferInstanceAs (Decidable (normalizeDateForGap a.start ≤ normalizeDateForGap b.start))

instance : IsTotal GapShow normLE := ⟨fun _ _ => Int.le_total _ _⟩

instance : IsTrans GapShow normLE := ⟨fun _ _ _ h1 h2 => le_trans h1 h2⟩

/-- The normalized idle gap of a consecutive pair: next start minus current
end. -/
def gapOf (p : GapShow × GapShow) : Int :=
  normalizeDateForGap p.2.start - normalizeDateForGap p.1.endT

/-- The issue pushed for a consecutive pair whose gap reached the threshold;
huge at or above 90 minutes, gap otherwise. -/
def mkGapIssue (audName : String) (p : GapShow × GapShow) : Issue :=
  { audName := audName
    type := if 90 ≤ gapOf p then "huge" else "gap"
    message := audName ++ ": gap from " ++ to12 p.1.endT ++ " to " ++ to12 p.2.start
      ++ " (" ++ formatDuration (gapOf p) ++ ")"
    minutes := gapOf p }

/-- The per-auditorium body of computeFlaggedIssues: sort the group by
normalized start, flag a late opening of at least 105 minutes, then flag
every consecutive pair whose normalized gap is at least 45 minutes. -/
def audIssues (audId : Int) (windowStartRaw : Int) (l : List GapShow) : List Issue :=
  match l.insertionSort normLE with
  | [] => []
  | first :: rest =>
    (if 105 ≤ normalizeDateForGap first.start - normalizeDateForGap windowStartRaw then
        [{ audName := if first.audName == "" then "Aud " ++ toString audId else first.audName
           type := "late"
           message := (if first.audName == "" then "Aud " ++ toString audId else first.audName)
             ++ ": slot before first show from " ++ to12 windowStartRaw
             ++ " to " ++ to12 first.start
             ++ " (" ++ formatDuration (normalizeDateForGap first.start - normalizeDateForGap windowStartRaw) ++ ")"
           minutes := normalizeDateForGap first.start - normalizeDateForGap windowStartRaw }]
      else [])
    ++ ((first :: rest).zip (first :: rest).tail).filterMap (fun p =>
        if 45 ≤ gapOf p then
          some (mkGapIssue (if first.audName == "" then "Aud " ++ toString audId else first.audName) p)
        else none)

/-- The descending-minutes order of the final issue sort. -/
def issueGE (a b : Issue) : Prop := b.minutes ≤ a.minutes

instance : DecidableRel issueGE :=
  fun a b => inferInstanceAs (Decidable (b.minutes ≤ a.minutes))

instance : IsTotal Issue issueGE := ⟨fun a b => Int.le_total b.minutes a.minutes⟩

instance : IsTrans Issue issueGE := ⟨fun _ _ _ h1 h2 => le_trans h2 h1⟩

/-- Mirrors computeFlaggedIssues in dashboard.js, parameterised by the
resolved show list and the operating-window start.  Shows with a falsy
auditorium id are skipped; groups are visited in ascending auditorium id,
which is the JS object iteration order for the integer keys the app uses;
the final sort is by descending minutes (the JS sort is stable and so is
insertion sort). -/
def computeFlaggedIssuesFrom (shows : List Rec) (firstShowHM : HM) : List Issue :=
  let withAud := shows.filterMap (fun r =>
    match r.audId with
    | some a => if a != 0 then some (a, (⟨r.start, r.endT, r.audName⟩ : GapShow)) else none
    | none => none)
  let audIds := ((withAud.map (fun p => p.1)).dedup).insertionSort (fun a b => a ≤ b)
  ((audIds.map (fun a =>
      audIssues a (dtFromHM firstShowHM)
        ((withAud.filter (fun p => p.1 == a)).map (fun p => p.2)))).flatten).insertionSort issueGE

/-- C6.  The analyzer: the returned issues are ordered by descending
duration; within an auditorium group (sorted by normalized start, so that a
00:30 show sorts after a 23:00 one) a late issue is emitted exactly when the
normalized first start is at least 105 minutes past the normalized window
start, carrying that difference; and a consecutive pair is flagged gap
exactly when its normalized gap is in [45, 90) and huge exactly when it is
at least 90, carrying the gap as minutes. -/
theorem computeFlaggedIssues_spec :
    (∀ (shows : List Rec) (fhm : HM),
       (computeFlaggedIssuesFrom shows fhm).Pairwise (fun a b => b.minutes ≤ a.minutes))
  ∧ (∀ (a ws : Int) (l : List GapShow) (first : GapShow) (rest : List GapShow),
       l.insertionSort normLE = first :: rest →
       (((∃ i ∈ audIssues a ws l, i.type = "late") ↔
           105 ≤ normalizeDateForGap first.start - normalizeDateForGap ws)
        ∧ ∀ i ∈ audIssues a ws l, i.type = "late" →
            i.minutes = normalizeDateForGap first.start - normalizeDateForGap ws))
  ∧ (∀ (a ws : Int) (l : List GapShow) (p : GapShow × GapShow),
       p ∈ (l.insertionSort normLE).zip (l.insertionSort normLE).tail →
       (45 ≤ gapOf p → gapOf p < 90 →
          ∃ i ∈ audIssues a ws l, i.type = "gap" ∧ i.minutes = gapOf p)
       ∧ (90 ≤ gapOf p →
          ∃ i ∈ audIssues a ws l, i.type = "huge" ∧ i.minutes = gapOf p))
  ∧ (∀ (a ws : Int) (l : List GapShow) (i : Issue), i ∈ audIssues a ws l →
       (i.type = "gap" → 45 ≤ i.minutes ∧ i.minutes < 90
          ∧ ∃ p ∈ (l.insertionSort normLE).zip (l.insertionSort normLE).tail, gapOf p = i.minutes)
       ∧ (i.type = "huge" → 90 ≤ i.minutes
          ∧ ∃ p ∈ (l.insertionSort normLE).zip (l.insertionSort normLE).tail, gapOf p = i.minutes)
       ∧ (i.type = "late" ∨ i.type = "gap" ∨ i.type = "huge"))
  ∧ normalizeDateForGap (dtFromHM ⟨23, 0⟩) < normalizeDateForGap (dtFromHM ⟨0, 30⟩) := by
  refine ⟨?_, ?_, ?_, ?_, by decide⟩
  · intro shows fhm
    unfold computeFlaggedIssuesFrom
    exact List.sorted_insertionSort issueGE _
  · intro a ws l first rest hsort
    unfold audIssues
    rw [hsort]
    constructor
    · constructor
      · rintro ⟨i, hi, hty⟩
        rcases List.mem_append.mp hi with hi | hi
        · by_cases hd : 105 ≤ normalizeDateForGap first.start - normalizeDateForGap ws
          · exact hd
          · rw [if_neg hd] at hi
            cases hi
        · exfalso
          rcases List.mem_filterMap.mp hi with ⟨p, _, hp⟩
          by_cases hg : 45 ≤ gapOf p
          · rw [if_pos hg] at hp
            injection hp with hp
            rw [← hp] at hty
            unfold mkGapIssue at hty
            simp only [] at hty
            by_cases hh : 90 ≤ gapOf p
            · rw [if_pos hh] at hty
              exact absurd hty (by decide)
            · rw [if_neg hh] at hty
              exact absurd hty (by decide)
          · rw [if_neg hg] at hp
            cases hp
      · intro hd
        refine ⟨_, List.mem_append_left _ (by rw [if_pos hd]; exact List.mem_singleton_self _), rfl⟩
    · intro i hi hty
      rcases List.mem_append.mp hi with hi | hi
      · by_cases hd : 105 ≤ normalizeDateForGap first.start - normalizeDateForGap ws
        · rw [if_pos hd] at hi
          rcases List.mem_singleton.mp hi with rfl
          rfl
        · rw [if_neg hd] at hi
          cases hi
      · exfalso
        rcases List.mem_filterMap.mp hi with ⟨p, _, hp⟩
        by_cases hg : 45 ≤ gapOf p
        · rw [if_pos hg] at hp
          injection hp with hp
          rw [← hp] at hty
          unfold mkGapIssue at hty
          simp only [] at hty
          by_cases hh : 90 ≤ gapOf p
          · rw [if_pos hh] at hty
            exact absurd hty (by decide)
          · rw [if_neg hh] at hty
            exact absurd hty (by decide)
        · rw [if_neg hg] at hp
          cases hp
  · intro a ws l p hp
    cases hsort : l.insertionSort normLE with
    | nil =>
      rw [hsort] at hp
      simp at hp
    | cons first rest =>
      rw [hsort] at hp
      unfold audIssues
      rw [hsort]
      constructor
      · intro hg hlt
        refine ⟨mkGapIssue (if first.audName == "" then "Aud " ++ toString a else first.audName) p,
          List.mem_append_right _ (List.mem_filterMap.mpr ⟨p, hp, by rw [if_pos hg]⟩), ?_, rfl⟩
        unfold mkGapIssue
        simp only []
        rw [if_neg (by omega)]
      · intro hh
        refine ⟨mkGapIssue (if first.audName == "" then "Aud " ++ toString a else first.audName) p,
          List.mem_append_right _ (List.mem_filterMap.mpr ⟨p, hp, by rw [if_pos (by omega)]⟩), ?_, rfl⟩
        unfold mkGapIssue
        simp only []
        rw [if_pos hh]
  · intro a ws l i hi
    cases hsort : l.insertionSort normLE with
    | nil =>
      unfold audIssues at hi
      rw [hsort] at hi
      cases hi
    | cons first rest =>
      unfold audIssues at hi
      rw [hsort] at hi
      rcases List.mem_append.mp hi with hi | hi
      · by_cases hd : 105 ≤ normalizeDateForGap first.start - normalizeDateForGap ws
        · rw [if_pos hd] at hi
          rcases List.mem_singleton.mp hi with rfl
          refine ⟨fun h => ?_, fun h => ?_, Or.inl rfl⟩
          · have h2 : ("late" : String) = "gap" := h
            exact absurd h2 (by decide)
          · have h2 : ("late" : String) = "huge" := h
            exact absurd h2 (by decide)
        · rw [if_neg hd] at hi
          cases hi
      · rcases List.mem_filterMap.mp hi with ⟨p, hpmem, hp⟩
        by_cases hg : 45 ≤ gapOf p
        · rw [if_pos hg] at hp
          injection hp with hp
          subst hp
          unfold mkGapIssue
          simp only []
          by_cases hh : 90 ≤ gapOf p
          · rw [if_pos hh]
            exact ⟨fun h => absurd h (by decide), fun _ => ⟨hh, p, hpmem, rfl⟩, Or.inr (Or.inr rfl)⟩
          · rw [if_neg hh]
            exact ⟨fun _ => ⟨hg, by omega, p, hpmem, rfl⟩, fun h => absurd h (by decide), Or.inr (Or.inl rfl)⟩
        · rw [if_neg hg] at hp
          cases hp

/-- The auditorium group with show A ending 20:00 and show B starting 21:00
(the gap-flag scenario of the spec). -/
def lW : List GapShow := [⟨1140, 1200, "Aud 1"⟩, ⟨1260, 1320, "Aud 1"⟩]

/-- The consecutive pair of lW. -/
def pW : GapShow × GapShow := (⟨1140, 1200, "Aud 1"⟩, ⟨1260, 1320, "Aud 1"⟩)

theorem computeFlaggedIssues_spec_witness :
    pW ∈ (lW.insertionSort normLE).zip (lW.insertionSort normLE).tail
  ∧ 45 ≤ gapOf pW
  ∧ gapOf pW < 90
  ∧ ∃ i ∈ audIssues 1 420 lW, i.type = "gap" ∧ i.minutes = gapOf pW :=
  ⟨by decide, by decide, by decide,
    (computeFlaggedIssues_spec.2.2.1 1 420 lW pW (by decide)).1 (by decide) (by decide)⟩

/-! Date copy (copySchedule in app.js) and its snapshot-store lemmas. -/

/-- The per-target assignment loop of copySchedule: falsy target dates are
skipped, every other target is overwritten with the copied snapshot. -/
def copyTargets (m : List (String × Sched)) (c : Sched) (ts : List String) :
    List (String × Sched) :=
  ts.foldl (fun acc t => if t == "" then acc else setSched acc t c) m

/-- Mirrors copySchedule in app.js: save the active snapshot, look the
source snapshot up, deep-copy it (undo stack reset to empty) onto every
target date, then save, which re-stores the active snapshot under the
current date and prunes. -/
def copySchedule (st : AppState) (fromDate : Option String) (targetDates : List String) :
    AppState :=
  if targetDates.isEmpty then st
  else
    match jsOrStr fromDate st.currentDate with
    | none => st
    | some sourceDate =>
      if sourceDate == "" then st
      else
        let st1 := saveCurrentSchedule st
        match getSched st1.scheduleByDate sourceDate with
        | none => st1
        | some srcSched =>
          saveWrite { st1 with
            scheduleByDate := copyTargets st1.scheduleByDate
              { srcSched with undoStack := [] } targetDates }

theorem getSched_setSched_self (m : List (String × Sched)) (k : String) (v : Sched) :
    getSched (setSched m k v) k = some v := by
  unfold setSched getSched
  induction m with
  | nil => simp
  | cons p rest ih =>
    by_cases hpk : p.1 = k
    · simp [hpk]
    · have hb : (p.1 == k) = false := beq_eq_false_iff_ne.mpr hpk
      by_cases hrest : rest.any (fun q => q.1 == k)
      · simp only [List.any_cons, hb, Bool.false_or, hrest, if_pos]
        simp only [List.any_cons, hb, Bool.false_or, hrest, if_pos] at ih
        simp only [List.map_cons, hb, Bool.false_eq_true, if_false, List.find?_cons, hb]
        exact ih
      · have hrb : rest.any (fun q => q.1 == k) = false := by
          revert hrest
          cases rest.any (fun q => q.1 == k) <;> simp
        simp only [List.any_cons, hb, Bool.false_or, hrb, Bool.false_eq_true, if_false]
        simp only [List.any_cons, hb, Bool.false_or, hrb, Bool.false_eq_true, if_false] at ih
        simp only [List.cons_append, List.find?_cons, hb]
        exact ih

theorem find?_map_update_other (rest : List (String × Sched)) (k0 k : String) (v : Sched)
    (h : k0 ≠ k) :
    List.find? (fun p => p.1 == k) (rest.map (fun p => if p.1 == k0 then (k0, v) else p))
      = List.find? (fun p => p.1 == k) rest := by
  induction rest with
  | nil => rfl
  | cons p rest ih =>
    simp only [List.map_cons]
    by_cases hpk0 : p.1 = k0
    · have hb : (p.1 == k0) = true := beq_iff_eq.mpr hpk0
      have hk : ((k0 : String) == k) = false := beq_eq_false_iff_ne.mpr h
      have hpk : (p.1 == k) = false := by
        rw [hpk0]
        exact hk
      simp only [hb, if_pos, List.find?_cons, hk, hpk, Bool.false_eq_true, if_false]
      exact ih
    · have hb : (p.1 == k0) = false := beq_eq_false_iff_ne.mpr hpk0
      simp only [hb, Bool.false_eq_true, if_false, List.find?_cons]
      cases hp : (p.1 == k) with
      | true => simp only [hp]
      | false =>
        simp only [hp, Bool.false_eq_true, if_false]
        exact ih

theorem getSched_setSched_other (m : List (String × Sched)) (k0 k : String) (v : Sched)
    (h : k0 ≠ k) :
    getSched (setSched m k0 v) k = getSched m k := by
  unfold setSched getSched
  by_cases hany : m.any (fun p => p.1 == k0)
  · rw [if_pos hany, find?_map_update_other m k0 k v h]
  · rw [if_neg hany]
    rw [List.find?_append]
    cases hfind : m.find? (fun p => p.1 == k) with
    | some p => rfl
    | none =>
      simp only [Option.none_or]
      have hkv : (((k0, v) : String × Sched).1 == k) = false := beq_eq_false_iff_ne.mpr h
      simp [List.find?, hkv]

theorem length_setSched_le (m : List (String × Sched)) (k : String) (v : Sched) :
    (setSched m k v).length ≤ m.length + 1 := by
  unfold setSched
  by_cases h : m.any (fun p => p.1 == k)
  · rw [if_pos h, List.length_map]
    omega
  · rw [if_neg h, List.length_append]
    simp

theorem any_key_setSched_self (m : List (String × Sched)) (k : String) (v : Sched) :
    (setSched m k v).any (fun p => p.1 == k) = true := by
  unfold setSched
  by_cases h : m.any (fun p => p.1 == k)
  · rw [if_pos h]
    rcases List.any_eq_true.mp h with ⟨p, hp, hpk⟩
    refine List.any_eq_true.mpr ⟨(k, v), ?_, by simp⟩
    refine List.mem_map.mpr ⟨p, hp, ?_⟩
    rw [if_pos hpk]
  · rw [if_neg h]
    refine List.any_eq_true.mpr ⟨(k, v), List.mem_append_right _ (List.mem_singleton_self _), by simp⟩

theorem any_key_setSched_mono (m : List (String × Sched)) (k0 k : String) (v : Sched)
    (h : m.any (fun p => p.1 == k) = true) :
    (setSched m k0 v).any (fun p => p.1 == k) = true := by
  by_cases hk : k0 = k
  · rw [hk]
    exact any_key_setSched_self m k v
  · unfold setSched
    by_cases hany : m.any (fun p => p.1 == k0)
    · rw [if_pos hany]
      rcases List.any_eq_true.mp h with ⟨p, hp, hpk⟩
      refine List.any_eq_true.mpr ⟨if p.1 == k0 then (k0, v) else p, List.mem_map.mpr ⟨p, hp, rfl⟩, ?_⟩
      cases hp0 : (p.1 == k0) with
      | true =>
        exfalso
        have h1 : p.1 = k0 := beq_iff_eq.mp hp0
        have h2 : p.1 = k := beq_iff_eq.mp hpk
        exact hk (h1 ▸ h2)
      | false =>
        simp only [Bool.false_eq_true, if_false]
        exact hpk
    · rw [if_neg hany]
      rcases List.any_eq_true.mp h with ⟨p, hp, hpk⟩
      exact List.any_eq_true.mpr ⟨p, List.mem_append_left _ hp, hpk⟩

theorem length_setSched_of_any (m : List (String × Sched)) (k : String) (v : Sched)
    (h : m.any (fun p => p.1 == k) = true) :
    (setSched m k v).length = m.length := by
  unfold setSched
  rw [if_pos h, List.length_map]

theorem prune_id_of_le (m : List (String × Sched)) (h : m.length ≤ 14) :
    pruneOldSchedules m = m := by
  unfold pruneOldSchedules
  rw [if_pos h]

theorem copyTargets_get_of_not_mem (c : Sched) (ts : List String) :
    ∀ (m : List (String × Sched)) (k : String), (∀ t ∈ ts, t ≠ k) →
      getSched (copyTargets m c ts) k = getSched m k := by
  induction ts with
  | nil => intro m k _; rfl
  | cons t rest ih =>
    intro m k hk
    unfold copyTargets
    rw [List.foldl_cons]
    by_cases ht : t == ""
    · rw [if_pos ht]
      exact ih m k (fun x hx => hk x (List.mem_cons_of_mem _ hx))
    · rw [if_neg ht]
      have := ih (setSched m t c) k (fun x hx => hk x (List.mem_cons_of_mem _ hx))
      unfold copyTargets at this
      rw [this]
      exact getSched_setSched_other m t k c (hk t (List.mem_cons_self _ _))

theorem copyTargets_get_of_mem (c : Sched) (ts : List String) :
    ∀ (m : List (String × Sched)) (t : String), t ∈ ts → t ≠ "" →
      getSched (copyTargets m c ts) t = some c := by
  induction ts with
  | nil => intro m t ht; cases ht
  | cons t0 rest ih =>
    intro m t ht htne
    unfold copyTargets
    rw [List.foldl_cons]
    by_cases hmem : t ∈ rest
    · by_cases ht0 : t0 == ""
      · rw [if_pos ht0]
        exact ih m t hmem htne
      · rw [if_neg ht0]
        exact ih (setSched m t0 c) t hmem htne
    · have hteq : t = t0 := by
        rcases List.mem_cons.mp ht with h | h
        · exact h
        · exact absurd h hmem
      subst hteq
      have htb : (t == "") = false := beq_eq_false_iff_ne.mpr htne
      rw [htb]
      simp only [Bool.false_eq_true, if_false]
      have hrest : ∀ x ∈ rest, x ≠ t := fun x hx he => hmem (he ▸ hx)
      have := copyTargets_get_of_not_mem c rest (setSched m t c) t hrest
      unfold copyTargets at this
      rw [this]
      exact getSched_setSched_self m t c

theorem copyTargets_length_le (c : Sched) (ts : List String) :
    ∀ m : List (String × Sched), (copyTargets m c ts).length ≤ m.length + ts.length := by
  induction ts with
  | nil => intro m; simp [copyTargets]
  | cons t rest ih =>
    intro m
    unfold copyTargets
    rw [List.foldl_cons]
    by_cases ht : t == ""
    · rw [if_pos ht]
      have := ih m
      unfold copyTargets at this
      simp only [List.length_cons]
      omega
    · rw [if_neg ht]
      have h1 := ih (setSched m t c)
      unfold copyTargets at h1
      have h2 := length_setSched_le m t c
      simp only [List.length_cons]
      omega

theorem copyTargets_any_mono (c : Sched) (ts : List String) :
    ∀ (m : List (String × Sched)) (k : String), m.any (fun p => p.1 == k) = true →
      (copyTargets m c ts).any (fun p => p.1 == k) = true := by
  induction ts with
  | nil => intro m k h; exact h
  | cons t rest ih =>
    intro m k h
    unfold copyTargets
    rw [List.foldl_cons]
    by_cases ht : t == ""
    · rw [if_pos ht]
      exact ih m k h
    · rw [if_neg ht]
      exact ih (setSched m t c) k (any_key_setSched_mono m t k c h)

theorem saveCurrentSchedule_parts (st : AppState) (d0 : String)
    (hcd : st.currentDate = some d0) :
    (saveCurrentSchedule st).currentDate = some d0
  ∧ (saveCurrentSchedule st).primeRows = st.primeRows
  ∧ (saveCurrentSchedule st).scheduleByDate
      = pruneOldSchedules (setSched st.scheduleByDate d0 (schedOfTop st)) := by
  unfold saveCurrentSchedule
  rw [hcd]
  exact ⟨rfl, rfl, rfl⟩

/-- C8 amended.  When the current schedule is set, the target is neither
empty nor the current date, and the store stays inside the 14-date retention
limit, copySchedule stores under every target date the source snapshot as it
stood after the pre-copy save, with its undo stack reset to empty,
overwriting any previous target snapshot. -/
theorem copySchedule_spec (st : AppState) (src d0 t : String) (targets : List String)
    (srcSched : Sched)
    (hcd : st.currentDate = some d0)
    (hsrc : src ≠ "")
    (ht : t ∈ targets)
    (htne : t ≠ "")
    (htd0 : t ≠ d0)
    (hlen : st.scheduleByDate.length + 1 + targets.length ≤ 14)
    (hget : getSched (saveCurrentSchedule st).scheduleByDate src = some srcSched) :
    getSched (copySchedule st (some src) targets).scheduleByDate t
      = some { srcSched with undoStack := [] } := by
  have htlen : 1 ≤ targets.length := by
    cases targets with
    | nil => cases ht
    | cons a rest => simp
  have hsb1len : (saveCurrentSchedule st).scheduleByDate.length ≤ st.scheduleByDate.length + 1 := by
    rw [(saveCurrentSchedule_parts st d0 hcd).2.2]
    rw [prune_id_of_le _ (by have := length_setSched_le st.scheduleByDate d0 (schedOfTop st); omega)]
    exact length_setSched_le st.scheduleByDate d0 (schedOfTop st)
  have hd0in : (saveCurrentSchedule st).scheduleByDate.any (fun p => p.1 == d0) = true := by
    rw [(saveCurrentSchedule_parts st d0 hcd).2.2]
    rw [prune_id_of_le _ (by have := length_setSched_le st.scheduleByDate d0 (schedOfTop st); omega)]
    exact any_key_setSched_self _ d0 _
  have hne : targets.isEmpty = false := by
    cases targets with
    | nil => cases ht
    | cons a rest => rfl
  have hsrcb : (src == "") = false := beq_eq_false_iff_ne.mpr hsrc
  have hjs : jsOrStr (some src) st.currentDate = some src := by
    simp [jsOrStr, jsTruthyStr, hsrc]
  unfold copySchedule
  rw [hne]
  simp only [Bool.false_eq_true, if_false, hjs, hsrcb, hget]
  set st1 := saveCurrentSchedule st with hst1
  set m2 := copyTargets st1.scheduleByDate { srcSched with undoStack := [] } targets with hm2
  have hm2len : m2.length ≤ 14 := by
    have h1 := copyTargets_length_le { srcSched with undoStack := [] } targets st1.scheduleByDate
    rw [← hm2] at h1
    omega
  have hd0m2 : m2.any (fun p => p.1 == d0) = true := by
    rw [hm2]
    exact copyTargets_any_mono _ targets _ d0 hd0in
  have hcur1 : st1.currentDate = some d0 := (saveCurrentSchedule_parts st d0 hcd).1
  unfold saveWrite
  simp only [hcur1]
  rw [prune_id_of_le]
  · rw [getSched_setSched_other m2 d0 t _ (fun he => htd0 he.symm)]
    exact copyTargets_get_of_mem _ targets st1.scheduleByDate t ht htne
  · rw [length_setSched_of_any _ d0 _ hd0m2]
    omega

/-- A snapshot with one row and a non-empty undo stack. -/
def schedA : Sched := ⟨[rowW], [], [], [], [], [UndoEntry.hide "x" false]⟩

/-- A state whose current date 2025-01-02 has an empty working schedule and
whose store holds 2025-01-01 with snapshot schedA. -/
def stC8 : AppState :=
  { baseState with currentDate := some "2025-01-02"
                   scheduleByDate := [("2025-01-01", schedA)] }

/-- C8 counterexample.  Copying onto the current date does not stick: the
final save re-stores the active working snapshot under the current date,
clobbering the copy, so the target date 2025-01-02 ends up with the empty
working snapshot rather than the copied source snapshot. -/
theorem copySchedule_current_date_clobbered :
    getSched (saveCurrentSchedule stC8).scheduleByDate "2025-01-01" = some schedA
  ∧ getSched (copySchedule stC8 (some "2025-01-01") ["2025-01-02"]).scheduleByDate "2025-01-02"
      = some (schedOfTop stC8)
  ∧ getSched (copySchedule stC8 (some "2025-01-01") ["2025-01-02"]).scheduleByDate "2025-01-02"
      ≠ some { schedA with undoStack := [] } :=
  ⟨by decide, by decide, by decide⟩

theorem copySchedule_spec_witness :
    stC8.currentDate = some "2025-01-02"
  ∧ ("2025-01-01" : String) ≠ ""
  ∧ "2025-01-03" ∈ ["2025-01-03"]
  ∧ ("2025-01-03" : String) ≠ ""
  ∧ ("2025-01-03" : String) ≠ "2025-01-02"
  ∧ stC8.scheduleByDate.length + 1 + ["2025-01-03"].length ≤ 14
  ∧ getSched (saveCurrentSchedule stC8).scheduleByDate "2025-01-01" = some schedA
  ∧ getSched (copySchedule stC8 (some "2025-01-01") ["2025-01-03"]).scheduleByDate "2025-01-03"
      = some { schedA with undoStack := [] } :=
  ⟨by decide, by decide, by decide, by decide, by decide, by decide, by decide,
    copySchedule_spec stC8 "2025-01-01" "2025-01-02" "2025-01-03" ["2025-01-03"] schedA
      (by decide) (by decide) (by decide) (by decide) (by decide) (by decide) (by decide)⟩

/-- A second manual show, in auditorium 2, starting 08:20 (before msF1). -/
def msEarly : Rec :=
  ⟨"M-2", "EX-1", 0, some 2, "Aud 2", some "F1", "Thunder Road", 500, 610, 100, 10, 10, 120, "Manual"⟩

/-- A state with two manual shows listed out of start order. -/
def stM2 : AppState := { baseState with manualShows := [msF1, msEarly] }

theorem getAllShows_dedup_spec_witness :
    resolvedShows stM2 = some [msF1, msEarly]
  ∧ (getAllShows stM2 = some (keepFirstByKey (([msF1, msEarly] : List Rec).insertionSort startLE))
     ∧ ∀ l, getAllShows stM2 = some l →
         l.Pairwise (fun a b => (a.start, a.audId, a.filmId) ≠ (b.start, b.audId, b.filmId))) :=
  ⟨by decide, getAllShows_dedup_spec stM2 [msF1, msEarly] (by decide)⟩

theorem getAllShows_sorted_witness :
    getAllShows stM2 = some [msEarly, msF1]
  ∧ ([msEarly, msF1] : List Rec).Pairwise (fun a b => a.start ≤ b.start) :=
  ⟨by decide, getAllShows_sorted stM2 [msEarly, msF1] (by decide)⟩

end Showtime
